import Mathlib

/-!
Verification of the skill-emulation move selector in `app.py`
(`z_ajedrez_cpl`): a shallow embedding of the pure decision logic, with the
external chess rules engine and analysis engine modelled as oracle inputs.

Conventions of the embedding:
* Engine scores are `Int` centipawns (mate collapsed to ±100000 by the
  score normalizer, as in `_score_to_cp`).
* Python `max(0, x)` on ints is `max 0 x : Int`.
* `int(target_cpl * 0.10)` is embedded as integer division `target_cpl / 10`:
  for every target in the configured range (0–70) the Python float product
  truncates to exactly this floor.
* `random.gauss` is external randomness: the selector takes the truncated
  sample `int(random.gauss(target_cpl, sigma))` as an explicit argument `g`.
* Moves are an opaque type parameter `α` (Python is duck-typed in the move
  objects); concrete instantiations use `String` names or `PMove` records.
-/

namespace AjedrezCpl

/-- One engine evaluation view (`chess.engine.Score`): either a plain
centipawn value or a forced mate with signed distance. -/
inductive ScoreView where
  | cp (v : Int)
  | mate (n : Int)
deriving DecidableEq, Repr

/-- Embeds `chess.engine.PovScore`: the evaluation as seen from White and from
Black. -/
structure PovScore where
  white : ScoreView
  black : ScoreView
deriving DecidableEq, Repr

/-- Embeds `_score_to_cp(score, pov_white)` (app.py lines 59–63): pick the
requested side's view; a mate collapses to `+100000` when the distance is
strictly positive (Python truthiness: a zero or missing distance falls to
the `else`), `-100000` otherwise; a plain score passes through. -/
def score_to_cp (score : PovScore) (pov_white : Bool) : Int :=
  let s := if pov_white then score.white else score.black
  match s with
  | .mate n => if 0 < n then 100000 else -100000
  | .cp v => v

/-- One entry of `CPL_MODES`: `{"depth": …, "mpv": …, "target": …,
"perfect": …}`. -/
structure CplMode where
  depth : Nat
  mpv : Nat
  target : Int
  perfect : Bool
deriving DecidableEq, Repr

/-- The dict literal spanning app.py lines 29–51 (the inner `{...}`;
see `CPL_MODES` below for the enclosing tuple). -/
def cpl_modes_table : List (String × CplMode) :=
  [ ("Perfecto (≈1)", ⟨18, 4, 1, true⟩),
    ("CPL 15", ⟨14, 6, 15, false⟩),
    ("CPL 20", ⟨13, 7, 20, false⟩),
    ("CPL 25", ⟨13, 8, 25, false⟩),
    ("CPL 30", ⟨12, 8, 30, false⟩),
    ("CPL 35", ⟨12, 9, 35, false⟩),
    ("CPL 40", ⟨10, 10, 40, false⟩),
    ("CPL 45", ⟨10, 11, 45, false⟩),
    ("CPL 50", ⟨10, 12, 50, false⟩),
    ("CPL 55", ⟨11, 13, 55, false⟩),
    ("CPL 60", ⟨11, 14, 60, false⟩),
    ("CPL 65", ⟨11, 15, 65, false⟩),
    ("CPL 70", ⟨8, 16, 70, false⟩) ]

/-- Embeds `CPL_MODES` as the source actually defines it: the assignment at
app.py lines 29–51 ends in `},` — a trailing comma — so the bound value is
a one-element tuple wrapping the dict, not the dict itself. A Python tuple
supports only integer indexing, so `CPL_MODES[mode_name]` (line 108, line
222) and `CPL_MODES.keys()` (line 291) fail on this value. -/
def CPL_MODES : List (List (String × CplMode)) :=
  [cpl_modes_table]

/-- The per-move sigma of `_choose_by_target_cpl` (app.py lines 83–87):
base `max(4, int(target*0.25))` below target 60 and `max(4, int(target*0.35))`
from 60 up (embedded as exact floors `target/4` and `target*35/100`), plus a
spread contribution capped at 30, plus 20 after a big blunder (tilt ≥ 120).
It only parameterizes the external Gaussian sampler. -/
def dynamicSigma (target_cpl : Int) (spread : Int) (last_engine_cpl : Int) : Int :=
  let base := max 4 (if target_cpl < 60 then target_cpl / 4 else target_cpl * 35 / 100)
  let withSpread := base + min 30 (spread / 10)
  if 120 ≤ last_engine_cpl then withSpread + 20 else withSpread

/-- Embeds `delta = max(0, best_cp - cp)`: the loss a line incurs relative to the
best line, floored at zero (app.py lines 94, 101, 105). -/
def lossDelta (best_cp cp : Int) : Int := max 0 (best_cp - cp)

/-- Embeds `diff = abs(delta - desired)` (app.py line 102): distance of a line's
loss from the sampled desired loss. -/
def lossDist (best_cp desired cp : Int) : Int := |lossDelta best_cp cp - desired|

/-- The satisficing loop of `_choose_by_target_cpl` (app.py lines 93–96):
return the first line whose loss `delta = max(0, best_cp - cp)` reaches the
threshold, or nothing when the loop falls through. -/
def satisficeScan {α : Type} (best_cp thr : Int) : List (α × Int) → Option (α × Int)
  | [] => none
  | (m, c) :: rest =>
      if thr ≤ lossDelta best_cp c then some (m, lossDelta best_cp c)
      else satisficeScan best_cp thr rest

/-- The fallback loop of `_choose_by_target_cpl` (app.py lines 99–104):
running state `(pick, best_diff, picked_cp)`, where `best_diff = none`
stands for the initial `float("inf")` (so the first line always replaces
it); a strictly smaller `|delta - desired|` replaces the pick, so ties keep
the earlier line. -/
def nearestScan {α : Type} (best_cp desired : Int)
    (acc : α × Option Int × Int) : List (α × Int) → α × Option Int × Int
  | [] => acc
  | (m, c) :: rest =>
      match acc.2.1 with
      | none => nearestScan best_cp desired (m, some (lossDist best_cp desired c), c) rest
      | some bd =>
          nearestScan best_cp desired
            (if lossDist best_cp desired c < bd
              then (m, some (lossDist best_cp desired c), c) else acc) rest

set_option linter.unusedVariables false in
/-- Embeds `_choose_by_target_cpl(lines, target_cpl, last_engine_cpl)` (app.py
lines 78–105). `g` is the externally sampled
`int(random.gauss(target_cpl, sigma))`, with
`sigma = dynamicSigma target_cpl spread last_engine_cpl`; the code clamps it
to `desired = max(0, g)`. On an empty list Python would raise `IndexError`
at `lines[0]`; the caller guards non-emptiness, and the embedding returns
the default move with loss 0 in that unreachable case. -/
def chooseByTargetCpl {α : Type} [Inhabited α]
    (lines : List (α × Int)) (target_cpl : Int) (last_engine_cpl : Int)
    (g : Int) : α × Int :=
  match lines with
  | [] => (default, 0)
  | (m0, c0) :: _ =>
      let best_cp := c0
      let desired := max 0 g
      let epsilon := max 3 (target_cpl / 10)
      match satisficeScan best_cp (max 0 (desired - epsilon)) lines with
      | some r => r
      | none =>
          let fin := nearestScan best_cp desired (m0, none, c0) lines
          (fin.1, lossDelta best_cp fin.2.2)

/-- Embeds `engine_pick_move(board, mode_name)` (app.py lines 106–120), with the
external interactions as parameters: `lines` is the `_multipv` result,
`play` the engine's single-best-move fallback (`engine.play` at the given
depth), `lastEngineCpl` the incoming global `LAST_ENGINE_CPL`, `g` the
Gaussian sample consumed by `_choose_by_target_cpl`. The result pairs the
returned `(move, cpl)` with the new value of `LAST_ENGINE_CPL`. -/
def engine_pick_move {α : Type} [Inhabited α] (p : CplMode)
    (lines : List (α × Int)) (play : Nat → α)
    (lastEngineCpl : Int) (g : Int) : (α × Int) × Int :=
  match lines with
  | [] => ((play p.depth, 0), 0)
  | (m0, _) :: _ =>
      if p.perfect then ((m0, 0), 0)
      else
        let r := chooseByTargetCpl lines p.target lastEngineCpl g
        (r, r.2)

/-- The inner lookup loop of the human-CPL block (app.py lines 226–229):
the score of the first ranked line whose move equals the played move, if
any. -/
def findChosenCp {α : Type} [DecidableEq α] (mv : α) : List (α × Int) → Option Int
  | [] => none
  | (m, c) :: rest => if m = mv then some c else findChosenCp mv rest

/-- The breadth used when re-ranking for the human's move (app.py line
223): `max(6, p["mpv"])`. -/
def human_breadth (p : CplMode) : Nat := max 6 p.mpv

/-- The human-move CPL computation of `_try_play` (app.py lines 220–234),
given the re-ranked pre-move lines, the played move, and — for the
absent-move fallback — the post-move single-line analysis score `postScore`
together with the post-move side to move (`tmp.turn == chess.WHITE`). When
the played move is absent the chosen score is the sign-inverted normalized
post-move score; the loss is `max(0, best_cp - chosen_cp)`. With zero
usable lines `my_cpl` keeps its initial 0. -/
def human_move_cpl {α : Type} [DecidableEq α] (lines : List (α × Int))
    (mv : α) (postScore : PovScore) (postTurnWhite : Bool) : Int :=
  match lines with
  | [] => 0
  | (_, best_cp) :: _ =>
      let chosen_cp :=
        match findChosenCp mv lines with
        | some cp => cp
        | none => -(score_to_cp postScore postTurnWhite)
      max 0 (best_cp - chosen_cp)

/-- A `chess.Move`: origin square, destination square, optional promotion
piece type (python-chess square numbering 0–63, QUEEN = 5). -/
structure PMove where
  fromSq : Nat
  toSq : Nat
  promotion : Option Nat
deriving DecidableEq, Repr

instance : Inhabited PMove := ⟨⟨0, 0, none⟩⟩

/-- The legality gate of `_try_play` (app.py lines 206–212): try the plain
move; if illegal and the origin piece is a pawn moving to rank 0 or 7
(`square_rank(sq) = sq >> 3`), retry with an auto-queen promotion. Returns
the move that will be played, or nothing when both checks fail. -/
def resolveMove (isLegal : PMove → Bool) (srcIsPawn : Bool)
    (src dst : Nat) : Option PMove :=
  let mv : PMove := ⟨src, dst, none⟩
  if isLegal mv then some mv
  else if srcIsPawn && (dst / 8 = 0 || dst / 8 = 7) then
    let mv2 : PMove := ⟨src, dst, some 5⟩
    if isLegal mv2 then some mv2 else none
  else none

/-- The board as the session sees it: the pushed move stack (the position
is a function of it) and the side to move (`true` = White). -/
structure BoardState where
  moveStack : List PMove
  turn : Bool
deriving DecidableEq, Repr

/-- Embeds `board.push(mv)`: append to the stack and flip the turn. -/
def pushMove (b : BoardState) (mv : PMove) : BoardState :=
  ⟨b.moveStack ++ [mv], !b.turn⟩

/-- The mutable session state touched by `_try_play` /
`_engine_move_and_update`: board, pending origin square, analysis toggle,
which colour the human controls, the four CPL accumulators (app.py lines
136–137) and the global `LAST_ENGINE_CPL` tilt (line 54). -/
structure GameState where
  board : BoardState
  origin : Option Nat
  analysis_enabled : Bool
  human_color : Bool
  cpl_sum_me : Int
  cpl_cnt_me : Nat
  cpl_sum_engine : Int
  cpl_cnt_engine : Nat
  lastEngineCpl : Int
deriving DecidableEq, Repr

/-- The external engines' answers for one `_try_play` invocation, supplied
as an oracle: rules-engine legality and pawn detection, the pre-move
`_multipv` lines for the human-CPL block, the post-move single-line
analysis score, game-over detection after the human's move, and the
`_multipv` lines / Gaussian sample / `engine.play` fallback consumed by the
engine's reply. -/
structure Oracle where
  isLegal : PMove → Bool
  srcIsPawn : Bool
  humanLines : List (PMove × Int)
  postScore : PovScore
  gameOver : Bool
  engineLines : List (PMove × Int)
  engineG : Int
  enginePlay : Nat → PMove

/-- Embeds `_engine_move_and_update` (app.py lines 254–267): ask
`engine_pick_move`, push the move, accumulate the engine CPL when analysis
is on; the new tilt was already fixed by `engine_pick_move`. -/
def engineMoveAndUpdate (p : CplMode) (o : Oracle) (st : GameState) : GameState :=
  let r := engine_pick_move p o.engineLines o.enginePlay st.lastEngineCpl o.engineG
  { st with
      board := pushMove st.board r.1.1,
      lastEngineCpl := r.2,
      cpl_sum_engine :=
        if st.analysis_enabled then st.cpl_sum_engine + r.1.2 else st.cpl_sum_engine,
      cpl_cnt_engine :=
        if st.analysis_enabled then st.cpl_cnt_engine + 1 else st.cpl_cnt_engine }

/-- Embeds `_try_play(dst_sq)` (app.py lines 193–252): reject out-of-turn clicks;
clear the pending origin; reject illegal moves (including the failed
auto-queen retry) with no other state change; otherwise score the human's
move (when analysis is on), push it, accumulate, and — unless the game just
ended — let the engine reply. -/
def tryPlay (p : CplMode) (o : Oracle) (st : GameState) (dst : Nat) : GameState :=
  if st.board.turn ≠ st.human_color then { st with origin := none }
  else
    match st.origin with
    | none => { st with origin := none }
    | some src =>
        match resolveMove o.isLegal o.srcIsPawn src dst with
        | none => { st with origin := none }
        | some mv =>
            let my_cpl : Int :=
              if st.analysis_enabled then
                human_move_cpl o.humanLines mv o.postScore (!st.board.turn)
              else 0
            let st1 : GameState :=
              { st with
                  origin := none,
                  board := pushMove st.board mv,
                  cpl_sum_me :=
                    if st.analysis_enabled then st.cpl_sum_me + my_cpl else st.cpl_sum_me,
                  cpl_cnt_me :=
                    if st.analysis_enabled then st.cpl_cnt_me + 1 else st.cpl_cnt_me }
            if o.gameOver then st1 else engineMoveAndUpdate p o st1

/-! ### Helper lemmas about the two scan loops -/

lemma lossDelta_nonneg (best_cp cp : Int) : 0 ≤ lossDelta best_cp cp :=
  le_max_left 0 _

lemma lossDelta_self (cp : Int) : lossDelta cp cp = 0 := by
  simp [lossDelta]

/-- The satisficing loop falls through exactly when every line's loss is
below the threshold. -/
lemma satisficeScan_eq_none {α : Type} (best_cp thr : Int) (l : List (α × Int)) :
    satisficeScan best_cp thr l = none ↔ ∀ p ∈ l, lossDelta best_cp p.2 < thr := by
  induction l with
  | nil => simp [satisficeScan]
  | cons hd tl ih =>
      obtain ⟨m, c⟩ := hd
      by_cases h : thr ≤ lossDelta best_cp c
      · simp [satisficeScan, h, not_lt.mpr h]
      · simp [satisficeScan, h, ih, not_le.mp h]

/-- A successful satisficing scan returns the first line reaching the
threshold, paired with its loss: the list splits as `l₁ ++ q :: l₂` with
every line of `l₁` below the threshold. -/
lemma satisficeScan_eq_some {α : Type} (best_cp thr : Int) (l : List (α × Int))
    (r : α × Int) (h : satisficeScan best_cp thr l = some r) :
    ∃ l₁ q l₂, l = l₁ ++ q :: l₂ ∧ thr ≤ lossDelta best_cp q.2 ∧
      (∀ p ∈ l₁, lossDelta best_cp p.2 < thr) ∧ r = (q.1, lossDelta best_cp q.2) := by
  induction l with
  | nil => simp [satisficeScan] at h
  | cons hd tl ih =>
      obtain ⟨m, c⟩ := hd
      by_cases hc : thr ≤ lossDelta best_cp c
      · refine ⟨[], (m, c), tl, rfl, hc, by simp, ?_⟩
        have h' : some (m, lossDelta best_cp c) = some r := by
          simpa [satisficeScan, hc] using h
        exact (Option.some.inj h').symm
      · have h' : satisficeScan best_cp thr tl = some r := by
          simpa [satisficeScan, hc] using h
        obtain ⟨l₁, q, l₂, rfl, hq, hl₁, hr⟩ := ih h'
        refine ⟨(m, c) :: l₁, q, l₂, rfl, hq, ?_, hr⟩
        intro p hp
        rcases List.mem_cons.mp hp with rfl | hp
        · exact not_le.mp hc
        · exact hl₁ p hp

/-- Running the fallback loop from an accumulator that already carries a
finite best diff either keeps the accumulator (everything scanned is at
least as far from the desired loss) or ends on the first line that attains
the strict minimum distance: earlier lines are strictly farther, later
lines no closer. -/
lemma nearestScan_spec {α : Type} (best_cp d : Int) (l : List (α × Int)) :
    ∀ (m : α) (c bd : Int),
      (nearestScan best_cp d (m, some bd, c) l = (m, some bd, c) ∧
        ∀ p ∈ l, bd ≤ lossDist best_cp d p.2)
      ∨ (∃ l₁ q l₂, l = l₁ ++ q :: l₂ ∧
          nearestScan best_cp d (m, some bd, c) l
            = (q.1, some (lossDist best_cp d q.2), q.2) ∧
          lossDist best_cp d q.2 < bd ∧
          (∀ p ∈ l₁, lossDist best_cp d q.2 < lossDist best_cp d p.2) ∧
          (∀ p ∈ l₂, lossDist best_cp d q.2 ≤ lossDist best_cp d p.2)) := by
  induction l with
  | nil =>
      intro m c bd
      left
      exact ⟨rfl, by simp⟩
  | cons hd tl ih =>
      intro m c bd
      obtain ⟨m', c'⟩ := hd
      by_cases hlt : lossDist best_cp d c' < bd
      · have hstep : nearestScan best_cp d (m, some bd, c) ((m', c') :: tl)
            = nearestScan best_cp d (m', some (lossDist best_cp d c'), c') tl := by
          simp [nearestScan, hlt]
        rcases ih m' c' (lossDist best_cp d c') with ⟨heq, hall⟩ |
          ⟨l₁, q, l₂, rfl, heq, hq, h₁, h₂⟩
        · right
          exact ⟨[], (m', c'), tl, rfl, by rw [hstep, heq], hlt, by simp, hall⟩
        · right
          refine ⟨(m', c') :: l₁, q, l₂, rfl, by rw [hstep, heq],
            lt_trans hq hlt, ?_, h₂⟩
          intro p hp
          rcases List.mem_cons.mp hp with rfl | hp
          · exact hq
          · exact h₁ p hp
      · have hstep : nearestScan best_cp d (m, some bd, c) ((m', c') :: tl)
            = nearestScan best_cp d (m, some bd, c) tl := by
          simp [nearestScan, hlt]
        rcases ih m c bd with ⟨heq, hall⟩ | ⟨l₁, q, l₂, rfl, heq, hq, h₁, h₂⟩
        · left
          refine ⟨by rw [hstep, heq], ?_⟩
          intro p hp
          rcases List.mem_cons.mp hp with rfl | hp
          · exact not_lt.mp hlt
          · exact hall p hp
        · right
          refine ⟨(m', c') :: l₁, q, l₂, rfl, by rw [hstep, heq], hq, ?_, h₂⟩
          intro p hp
          rcases List.mem_cons.mp hp with rfl | hp
          · exact lt_of_lt_of_le hq (not_lt.mp hlt)
          · exact h₁ p hp

/-- Unfolding `chooseByTargetCpl` on a non-empty list to its two loops. -/
lemma chooseByTargetCpl_cons {α : Type} [Inhabited α] (m0 : α) (c0 : Int)
    (tl : List (α × Int)) (target last g : Int) :
    chooseByTargetCpl ((m0, c0) :: tl) target last g
      = (match satisficeScan c0 (max 0 (max 0 g - max 3 (target / 10))) ((m0, c0) :: tl) with
         | some r => r
         | none =>
             let fin := nearestScan c0 (max 0 g) (m0, none, c0) ((m0, c0) :: tl)
             (fin.1, lossDelta c0 fin.2.2)) := rfl

/-- C1: for every non-empty ranked candidate list and every sampled desired
loss `max 0 g` (with `epsilon = max 3 ⌊target_cpl/10⌋`), the satisficing
scan of `_choose_by_target_cpl` accepts the first candidate in ranked order
whose loss `delta = max(0, best - score)` is at least `desired - epsilon`
— so the returned candidate is the best-ranked threshold-satisfying one —
and when no candidate satisfies the threshold the fallback returns the
candidate minimizing `|delta - desired|`, ties resolved in favour of the
first occurrence in ranked order. -/
theorem chooseByTargetCpl_satisficing_fallback {α : Type} [Inhabited α]
    (m0 : α) (c0 : Int) (tl : List (α × Int)) (target last g : Int) :
    (∃ l₁ q l₂, (m0, c0) :: tl = l₁ ++ q :: l₂ ∧
        max 0 g - max 3 (target / 10) ≤ lossDelta c0 q.2 ∧
        (∀ p ∈ l₁, lossDelta c0 p.2 < max 0 g - max 3 (target / 10)) ∧
        chooseByTargetCpl ((m0, c0) :: tl) target last g = (q.1, lossDelta c0 q.2))
    ∨ ((∀ p ∈ (m0, c0) :: tl, lossDelta c0 p.2 < max 0 g - max 3 (target / 10)) ∧
       ∃ l₁ q l₂, (m0, c0) :: tl = l₁ ++ q :: l₂ ∧
        (∀ p ∈ l₁, lossDist c0 (max 0 g) q.2 < lossDist c0 (max 0 g) p.2) ∧
        (∀ p ∈ l₂, lossDist c0 (max 0 g) q.2 ≤ lossDist c0 (max 0 g) p.2) ∧
        chooseByTargetCpl ((m0, c0) :: tl) target last g = (q.1, lossDelta c0 q.2)) := by
  rcases hscan : satisficeScan c0 (max 0 (max 0 g - max 3 (target / 10))) ((m0, c0) :: tl)
    with _ | r
  · -- fall-through: every line is below the threshold; the fallback runs
    right
    have hall := (satisficeScan_eq_none _ _ _).mp hscan
    have hallw : ∀ p ∈ (m0, c0) :: tl,
        lossDelta c0 p.2 < max 0 g - max 3 (target / 10) := by
      intro p hp
      rcases lt_max_iff.mp (hall p hp) with h | h
      · exact absurd h (not_lt.mpr (lossDelta_nonneg c0 p.2))
      · exact h
    refine ⟨hallw, ?_⟩
    have hchoose : chooseByTargetCpl ((m0, c0) :: tl) target last g
        = (let fin := nearestScan c0 (max 0 g) (m0, none, c0) ((m0, c0) :: tl)
           (fin.1, lossDelta c0 fin.2.2)) := by
      rw [chooseByTargetCpl_cons, hscan]
    have hstep : nearestScan c0 (max 0 g) (m0, none, c0) ((m0, c0) :: tl)
        = nearestScan c0 (max 0 g) (m0, some (lossDist c0 (max 0 g) c0), c0) tl := by
      simp [nearestScan]
    rcases nearestScan_spec c0 (max 0 g) tl m0 c0 (lossDist c0 (max 0 g) c0) with
      ⟨heq, hkeep⟩ | ⟨l₁, q, l₂, rfl, heq, hq, h₁, h₂⟩
    · refine ⟨[], (m0, c0), tl, rfl, by simp, hkeep, ?_⟩
      rw [hchoose]
      simp only [hstep, heq]
    · refine ⟨(m0, c0) :: l₁, q, l₂, rfl, ?_, h₂, ?_⟩
      · intro p hp
        rcases List.mem_cons.mp hp with rfl | hp
        · exact hq
        · exact h₁ p hp
      · rw [hchoose]
        simp only [hstep, heq]
  · -- the scan accepted a line: it is the first one over the threshold
    left
    obtain ⟨l₁, q, l₂, hdec, hq, hl₁, hr⟩ := satisficeScan_eq_some _ _ _ _ hscan
    refine ⟨l₁, q, l₂, hdec, le_trans (le_max_right 0 _) hq, ?_, ?_⟩
    · intro p hp
      rcases lt_max_iff.mp (hl₁ p hp) with h | h
      · exact absurd h (not_lt.mpr (lossDelta_nonneg c0 p.2))
      · exact h
    · rw [chooseByTargetCpl_cons, hscan, hr]

/-- The loss reported by `_choose_by_target_cpl` is never negative. -/
lemma chooseByTargetCpl_snd_nonneg {α : Type} [Inhabited α]
    (lines : List (α × Int)) (target last g : Int) :
    0 ≤ (chooseByTargetCpl lines target last g).2 := by
  cases lines with
  | nil => simp [chooseByTargetCpl]
  | cons hd tl =>
      obtain ⟨m0, c0⟩ := hd
      rcases hscan : satisficeScan c0 (max 0 (max 0 g - max 3 (target / 10)))
          ((m0, c0) :: tl) with _ | r
      · rw [chooseByTargetCpl_cons, hscan]
        exact lossDelta_nonneg _ _
      · obtain ⟨l₁, q, l₂, _, _, _, hr⟩ := satisficeScan_eq_some _ _ _ _ hscan
        rw [chooseByTargetCpl_cons, hscan, hr]
        exact lossDelta_nonneg _ _

/-- C2: on any non-empty candidate list, a tier whose `perfect` flag is set
makes `engine_pick_move` return the first (best) candidate with attributed
CPL 0 and reset `LAST_ENGINE_CPL` to 0, whatever the tier's target, the
incoming tilt, and the Gaussian sample. -/
theorem engine_pick_move_perfect {α : Type} [Inhabited α]
    (depth mpv : Nat) (target : Int) (m0 : α) (c0 : Int) (tl : List (α × Int))
    (play : Nat → α) (last g : Int) :
    engine_pick_move ⟨depth, mpv, target, true⟩ ((m0, c0) :: tl) play last g
      = ((m0, 0), 0) := rfl

/-- C3: on a single-candidate list, `_choose_by_target_cpl` returns that
candidate with loss 0, for every target, incoming tilt and Gaussian sample
— both when the satisficing scan accepts it (`desired ≤ epsilon`) and when
the nearest-match fallback runs. -/
theorem chooseByTargetCpl_singleton {α : Type} [Inhabited α]
    (m : α) (c : Int) (target last g : Int) :
    chooseByTargetCpl [(m, c)] target last g = (m, 0) := by
  rcases hscan : satisficeScan c (max 0 (max 0 g - max 3 (target / 10))) [(m, c)]
    with _ | r
  · rw [chooseByTargetCpl_cons, hscan]
    simp [nearestScan, lossDelta_self]
  · obtain ⟨l₁, q, l₂, hdec, _, _, hr⟩ := satisficeScan_eq_some _ _ _ _ hscan
    have hq : q = (m, c) := by
      rcases l₁ with _ | ⟨p, l₁⟩
      · exact (by simpa using hdec.symm : q = (m, c) ∧ l₂ = []).1
      · rcases l₁ <;> simp at hdec
    rw [chooseByTargetCpl_cons, hscan, hr, hq, lossDelta_self]

/-- C4: `engine_pick_move` never reports a negative attributed CPL and
always leaves a non-negative tilt; the tilt is set to 0 on the
zero-candidate fallback path and on every perfect tier, and equals the
attributed loss on the non-perfect non-empty path. -/
theorem engine_pick_move_nonneg_tilt {α : Type} [Inhabited α]
    (p : CplMode) (lines : List (α × Int)) (depth mpv : Nat) (target : Int)
    (m0 : α) (c0 : Int) (tl : List (α × Int)) (play : Nat → α) (last g : Int) :
    0 ≤ (engine_pick_move p lines play last g).1.2
    ∧ 0 ≤ (engine_pick_move p lines play last g).2
    ∧ engine_pick_move p ([] : List (α × Int)) play last g = ((play p.depth, 0), 0)
    ∧ (engine_pick_move ⟨depth, mpv, target, true⟩ lines play last g).2 = 0
    ∧ (engine_pick_move ⟨depth, mpv, target, false⟩ ((m0, c0) :: tl) play last g).2
        = (engine_pick_move ⟨depth, mpv, target, false⟩ ((m0, c0) :: tl) play last g).1.2 := by
  refine ⟨?_, ?_, rfl, ?_, rfl⟩
  · cases lines with
    | nil => simp [engine_pick_move]
    | cons hd tl'
        =>
        obtain ⟨m', c'⟩ := hd
        by_cases hp : p.perfect
        · simp [engine_pick_move, hp]
        · simpa [engine_pick_move, hp] using
            chooseByTargetCpl_snd_nonneg ((m', c') :: tl') p.target last g
  · cases lines with
    | nil => simp [engine_pick_move]
    | cons hd tl'
        =>
        obtain ⟨m', c'⟩ := hd
        by_cases hp : p.perfect
        · simp [engine_pick_move, hp]
        · simpa [engine_pick_move, hp] using
            chooseByTargetCpl_snd_nonneg ((m', c') :: tl') p.target last g
  · cases lines with
    | nil => rfl
    | cons hd tl'
        =>
        obtain ⟨m', c'⟩ := hd
        rfl

/-- C5 (Scenario A): with candidates `[(e4,+50), (d4,+40), (Nf3,+10),
(a3,-20)]`, target 30 (epsilon `max 3 ⌊30/10⌋ = 3`) and the Gaussian sample
forced to 38 — acceptance threshold 35 — the satisficing scan skips e4
(delta 0) and d4 (delta 10) and selects Nf3 with attributed loss 40,
whatever the incoming tilt. -/
theorem chooseByTargetCpl_scenarioA (last : Int) :
    chooseByTargetCpl [("e4", 50), ("d4", 40), ("Nf3", 10), ("a3", -20)] 30 last 38
      = ("Nf3", 40) := rfl

/-- C6: with zero usable candidate lines, `engine_pick_move` never reaches
`_choose_by_target_cpl`: it returns the external engine's single best move
searched at the tier's depth, attributes zero loss, and resets the tilt to
0, independently of the tier's target, the tilt and the Gaussian sample. -/
theorem engine_pick_move_empty_fallback {α : Type} [Inhabited α]
    (p : CplMode) (play : Nat → α) (last g : Int) :
    engine_pick_move p ([] : List (α × Int)) play last g
      = ((play p.depth, 0), 0) := rfl

/-- C10: on a non-empty candidate list the non-perfect selector always
returns the move of one of the input candidates, and the attributed loss is
`max(0, best - score)` of that same candidate. -/
theorem chooseByTargetCpl_member_consistent {α : Type} [Inhabited α]
    (m0 : α) (c0 : Int) (tl : List (α × Int)) (target last g : Int) :
    ∃ q ∈ (m0, c0) :: tl,
      chooseByTargetCpl ((m0, c0) :: tl) target last g = (q.1, lossDelta c0 q.2) := by
  rcases hscan : satisficeScan c0 (max 0 (max 0 g - max 3 (target / 10))) ((m0, c0) :: tl)
    with _ | r
  · have hstep : nearestScan c0 (max 0 g) (m0, none, c0) ((m0, c0) :: tl)
        = nearestScan c0 (max 0 g) (m0, some (lossDist c0 (max 0 g) c0), c0) tl := by
      simp [nearestScan]
    rcases nearestScan_spec c0 (max 0 g) tl m0 c0 (lossDist c0 (max 0 g) c0) with
      ⟨heq, _⟩ | ⟨l₁, q, l₂, rfl, heq, _, _, _⟩
    · refine ⟨(m0, c0), List.mem_cons_self _ _, ?_⟩
      rw [chooseByTargetCpl_cons, hscan]
      simp only [hstep, heq]
    · refine ⟨q, List.mem_cons_of_mem _
        (List.mem_append_right _ (List.mem_cons_self _ _)), ?_⟩
      rw [chooseByTargetCpl_cons, hscan]
      simp only [hstep, heq]
  · obtain ⟨l₁, q, l₂, hdec, _, _, hr⟩ := satisficeScan_eq_some _ _ _ _ hscan
    refine ⟨q, ?_, ?_⟩
    · rw [hdec]
      exact List.mem_append_right _ (List.mem_cons_self _ _)
    · rw [chooseByTargetCpl_cons, hscan, hr]

/-- C7: the Human-Move Evaluator re-ranks the pre-move position with
breadth `max(6, tier.mpv)` — never below the fixed minimum 6 and never
below the tier's breadth; when the played move is among the ranked
candidates the attributed loss is `max(0, best - that candidate's score)`,
and when it is absent the chosen score defaults to the sign-inverted
normalized post-move score (side to move after the move), the loss again
floored at zero — hence never negative. -/
theorem human_move_eval_spec {α : Type} [DecidableEq α] (p : CplMode)
    (m0 : α) (b : Int) (tl : List (α × Int)) (mv : α) (s : PovScore) (w : Bool) :
    6 ≤ human_breadth p ∧ p.mpv ≤ human_breadth p
    ∧ human_move_cpl ((m0, b) :: tl) mv s w
        = max 0 (b - (findChosenCp mv ((m0, b) :: tl)).getD (-(score_to_cp s w)))
    ∧ 0 ≤ human_move_cpl ((m0, b) :: tl) mv s w := by
  refine ⟨le_max_left _ _, le_max_right _ _, ?_, ?_⟩
  · cases h : findChosenCp mv ((m0, b) :: tl) <;> simp [human_move_cpl, h]
  · cases h : findChosenCp mv ((m0, b) :: tl) <;>
      simp [human_move_cpl, h, le_max_left]

/-- C8 (code bug): the assignment spanning app.py lines 29–51 ends in a
trailing comma, so the module-level `CPL_MODES` is a one-element tuple
wrapping the skill table rather than the table itself — yet the same file
indexes it by tier name (lines 108 and 222) and asks it for `.keys()`
(line 291), operations a tuple does not support. The claimed mapping
behaviour holds of the wrapped dict: its keys are distinct (name lookup
yields each tier's configuration), it contains a perfect tier, and its
non-perfect targets ascend from 15 to 70 centipawns. -/
theorem cpl_modes_tuple_bug :
    CPL_MODES = [cpl_modes_table]
    ∧ (cpl_modes_table.map Prod.fst).Nodup
    ∧ cpl_modes_table.lookup "Perfecto (≈1)" = some ⟨18, 4, 1, true⟩
    ∧ cpl_modes_table.lookup "CPL 30" = some ⟨12, 8, 30, false⟩
    ∧ ((cpl_modes_table.filter (fun e => !e.2.perfect)).map (fun e => e.2.target))
        = [15, 20, 25, 30, 35, 40, 45, 50, 55, 60, 65, 70] := by
  refine ⟨rfl, ?_, rfl, rfl, rfl⟩
  decide

/-- C9: an illegal human move — wrong turn order, or rejected by the rules
engine even after the auto-queen retry (which covers moves disallowed by
check or pin) — leaves the board position, the move history, the CPL sums
and counts, and the tilt unchanged, and attributes no loss: the only
effect of `_try_play` is clearing the pending origin square. -/
theorem tryPlay_illegal_unchanged (p : CplMode) (o : Oracle) (st : GameState)
    (dst : Nat)
    (h : st.board.turn ≠ st.human_color
      ∨ ∀ src, st.origin = some src →
          resolveMove o.isLegal o.srcIsPawn src dst = none) :
    tryPlay p o st dst = { st with origin := none } := by
  unfold tryPlay
  by_cases hturn : st.board.turn ≠ st.human_color
  · rw [if_pos hturn]
  · rw [if_neg hturn]
    rcases h with h | h
    · exact absurd h hturn
    · cases horig : st.origin with
      | none => rfl
      | some src =>
          dsimp only
          rw [h src horig]

/-- Witness: a concrete rejected move (the rules engine refuses both the
plain move and the promotion retry) leaves a concrete session state
unchanged apart from the cleared origin. -/
theorem tryPlay_illegal_unchanged_witness :
    tryPlay ⟨12, 8, 30, false⟩
      ⟨fun _ => false, false, [], ⟨.cp 0, .cp 0⟩, false, [], 0, fun _ => ⟨0, 0, none⟩⟩
      ⟨⟨[], true⟩, some 12, true, true, 0, 0, 0, 0, 0⟩ 28
      = { (⟨⟨[], true⟩, some 12, true, true, 0, 0, 0, 0, 0⟩ : GameState) with
          origin := none } :=
  tryPlay_illegal_unchanged _ _ _ _ (Or.inr (fun _ _ => rfl))

end AjedrezCpl
